import Mathlib

/-
Verification of the scheduling engine of the shuttle repository
(src/src/scheduler/mod.rs): the Schedule / ScheduleStep / ScheduleRecord
data model, the Scheduler interface, the delegating implementation for
boxed schedulers, and — modelled from the specification where the
strategy source files (dfs.rs, pct.rs, random.rs, replay.rs,
round_robin.rs, determinism_check.rs) are not available — the scheduling
strategies themselves.

Machine-integer note: `TaskId` is an opaque equatable handle supplied by
the execution engine; we model it as `Nat`.  The `seed` field is a `u64`
in the source; no arithmetic is ever performed on it by the code under
study (it is only stored and copied), so it is modelled as `Nat`.
-/

/-- Opaque task handle (external to the scheduling engine; the source
re-exports `crate::runtime::task::TaskId`).  Equality-comparable,
hashable, cloneable; modelled as a natural number. -/
abbrev TaskId := Nat

/-- One entry of a schedule, mirroring `enum ScheduleStep` in
src/src/scheduler/mod.rs: either a scheduling decision `Task(TaskId)` or
a record that a random value was served (`Random`, no payload). -/
inductive ScheduleStep where
  | task (t : TaskId)
  | random
  deriving DecidableEq

/-- Mirror of `struct Schedule { seed: u64, steps: Vec<ScheduleStep> }`. -/
structure Schedule where
  seed : Nat
  steps : List ScheduleStep
  deriving DecidableEq

/-- Mirror of `struct ScheduleRecord { step: ScheduleStep,
runnable_tasks: HashSet<TaskId> }`; the hash set is modelled as a
`Finset`. -/
structure ScheduleRecord where
  step : ScheduleStep
  runnable_tasks : Finset TaskId
  deriving DecidableEq

/-- Mirror of `ScheduleRecord::new`: starts from an empty set and
inserts every element of `options_vec` in order. -/
def ScheduleRecord.new (step : ScheduleStep) (options_vec : List TaskId) :
    ScheduleRecord :=
  { step := step
    runnable_tasks := options_vec.foldl (fun s t => insert t s) ∅ }

/-- Mirror of `Schedule::new`. -/
def Schedule.new (seed : Nat) : Schedule :=
  { seed := seed, steps := [] }

/-- Mirror of `Schedule::new_from_task_ids`: the steps are one
`Task` step per input id, in input order. -/
def Schedule.new_from_task_ids (seed : Nat) (task_ids : List TaskId) :
    Schedule :=
  { seed := seed, steps := task_ids.map ScheduleStep.task }

/-- Mirror of `Schedule::push_task` (`self.steps.push(ScheduleStep::Task(task))`). -/
def Schedule.push_task (s : Schedule) (task : TaskId) : Schedule :=
  { s with steps := s.steps ++ [ScheduleStep.task task] }

/-- Mirror of `Schedule::push_random` (`self.steps.push(ScheduleStep::Random)`). -/
def Schedule.push_random (s : Schedule) : Schedule :=
  { s with steps := s.steps ++ [ScheduleStep.random] }

/-- Mirror of `Schedule::len`. -/
def Schedule.len (s : Schedule) : Nat :=
  s.steps.length

/-- Mirror of `Schedule::is_empty`. -/
def Schedule.is_empty (s : Schedule) : Bool :=
  s.steps.isEmpty

/-- Membership in the set built by folding `insert` over a list, as
`ScheduleRecord::new` does. -/
theorem mem_foldl_insert (l : List TaskId) :
    ∀ (s : Finset TaskId) (t : TaskId),
      t ∈ l.foldl (fun s t => insert t s) s ↔ t ∈ l ∨ t ∈ s := by
  induction l with
  | nil => intro s t; simp
  | cons x xs ih =>
    intro s t
    simp [List.foldl_cons, ih (insert x s) t, Finset.mem_insert]
    tauto

/-- The runnable set recorded by `ScheduleRecord::new` is the finite set
of the option list's elements. -/
theorem scheduleRecord_runnable_eq_toFinset (step : ScheduleStep)
    (options_vec : List TaskId) :
    (ScheduleRecord.new step options_vec).runnable_tasks =
      options_vec.toFinset := by
  apply Finset.ext
  intro t
  simp [ScheduleRecord.new, mem_foldl_insert]

/-- Folding `push_task` over a list of ids appends the corresponding
`Task` steps and keeps the seed. -/
theorem foldl_push_task_eq (ids : List TaskId) :
    ∀ s : Schedule,
      ids.foldl Schedule.push_task s =
        { seed := s.seed, steps := s.steps ++ ids.map ScheduleStep.task } := by
  induction ids with
  | nil => intro s; simp
  | cons x xs ih =>
    intro s
    simp [List.foldl_cons, ih, Schedule.push_task]

/-- C3: `push_task` appends exactly `ScheduleStep::Task(t)` at the end of
the step list and `push_random` appends exactly `ScheduleStep::Random`;
both leave the seed and every previously recorded step unchanged. -/
theorem push_task_push_random_append (s : Schedule) (t : TaskId) :
    (s.push_task t).steps = s.steps ++ [ScheduleStep.task t] ∧
    (s.push_task t).seed = s.seed ∧
    (s.push_task t).steps.take s.steps.length = s.steps ∧
    (s.push_random).steps = s.steps ++ [ScheduleStep.random] ∧
    (s.push_random).seed = s.seed ∧
    (s.push_random).steps.take s.steps.length = s.steps := by
  refine ⟨rfl, rfl, ?_, rfl, rfl, ?_⟩ <;>
    simp [Schedule.push_task, Schedule.push_random, List.take_left]

/-- C4: `Schedule::new` makes a schedule with the given seed and no
steps; `Schedule::new_from_task_ids` makes one whose steps are exactly
one `Task` step per input id in input order, and contain no `Random`
step. -/
theorem schedule_new_spec (seed : Nat) (ids : List TaskId) :
    (Schedule.new seed).seed = seed ∧
    (Schedule.new seed).steps = [] ∧
    (Schedule.new_from_task_ids seed ids).seed = seed ∧
    (Schedule.new_from_task_ids seed ids).steps = ids.map ScheduleStep.task ∧
    ScheduleStep.random ∉ (Schedule.new_from_task_ids seed ids).steps := by
  refine ⟨rfl, rfl, rfl, rfl, ?_⟩
  simp [Schedule.new_from_task_ids]

/-- C5: a task id is in the recorded runnable set iff it occurs in the
option list, and the set's cardinality is the number of distinct ids in
the list (duplicates collapse). -/
theorem schedule_record_runnable_spec (step : ScheduleStep)
    (options_vec : List TaskId) :
    (∀ t : TaskId,
      t ∈ (ScheduleRecord.new step options_vec).runnable_tasks ↔
        t ∈ options_vec) ∧
    (ScheduleRecord.new step options_vec).runnable_tasks.card =
      options_vec.dedup.length := by
  constructor
  · intro t
    simp [scheduleRecord_runnable_eq_toFinset]
  · rw [scheduleRecord_runnable_eq_toFinset]
    exact List.card_toFinset options_vec

/-- C6: `len` is the number of recorded steps and `is_empty` holds iff
`len` is zero. -/
theorem len_is_empty_spec (s : Schedule) :
    s.len = s.steps.length ∧ (s.is_empty = true ↔ s.len = 0) := by
  refine ⟨rfl, ?_⟩
  simp [Schedule.is_empty, Schedule.len, List.isEmpty_iff_length_eq_zero]

/-- C7: every `ScheduleStep` is either `Task t` for some task id or
`Random`, and `Random` carries no payload (any two `Random` steps are
equal, so a schedule records which random requests occurred and in what
order but not the values themselves). -/
theorem schedule_step_two_variants :
    (∀ st : ScheduleStep,
      (∃ t, st = ScheduleStep.task t) ∨ st = ScheduleStep.random) ∧
    (∀ st st' : ScheduleStep,
      st = ScheduleStep.random → st' = ScheduleStep.random → st = st') := by
  constructor
  · intro st
    cases st with
    | task t => exact Or.inl ⟨t, rfl⟩
    | random => exact Or.inr rfl
  · intro st st' h h'
    rw [h, h']

/-- Closed instance of C7 at the `Random` step. -/
theorem schedule_step_two_variants_app :
    ((∃ t, ScheduleStep.random = ScheduleStep.task t) ∨
      ScheduleStep.random = ScheduleStep.random) ∧
    (ScheduleStep.random : ScheduleStep) = ScheduleStep.random :=
  ⟨schedule_step_two_variants.1 ScheduleStep.random,
   schedule_step_two_variants.2 ScheduleStep.random ScheduleStep.random rfl rfl⟩

/-- C9: `ScheduleRecord::new` performs no validation: for every step and
every option list it stores the step argument unchanged, even when the
step names a task absent from the options (witnessed here by `Task 0`
with an empty option list, whose recorded runnable set is empty). -/
theorem schedule_record_no_validation (step : ScheduleStep)
    (options_vec : List TaskId) :
    (ScheduleRecord.new step options_vec).step = step ∧
    (ScheduleRecord.new (ScheduleStep.task 0) []).step = ScheduleStep.task 0 ∧
    (ScheduleRecord.new (ScheduleStep.task 0) []).runnable_tasks = ∅ := by
  refine ⟨rfl, rfl, ?_⟩
  rfl

/-- C10: `Schedule::new_from_task_ids seed ids` equals the schedule built
by starting from `Schedule::new seed` and pushing each id in order. -/
theorem new_from_task_ids_as_pushes (seed : Nat) (ids : List TaskId) :
    Schedule.new_from_task_ids seed ids =
      ids.foldl Schedule.push_task (Schedule.new seed) := by
  rw [foldl_push_task_eq]
  simp [Schedule.new, Schedule.new_from_task_ids]

/-- The `Scheduler` trait of src/src/scheduler/mod.rs, embedded as a
record of state-passing methods over an explicit state type `σ`
(`&mut self` becomes state in, state out).  `new_execution` returns
`None` to stop testing; `next_task` returns the chosen runnable task or
`None` to stop exploring the current schedule; `next_u64` returns the
next pseudo-random value (a `u64` in the source, modelled as `Nat`). -/
structure Scheduler (σ : Type) where
  new_execution : σ → Option Schedule × σ
  next_task : σ → List TaskId → Option TaskId → Bool → Option TaskId × σ
  next_u64 : σ → Nat × σ

/-- The `impl Scheduler for Box<dyn Scheduler + Send>` of
src/src/scheduler/mod.rs: every method calls the same method on the
boxed inner scheduler (`self.as_mut()`), with the same arguments. -/
def boxScheduler {σ : Type} (inner : Scheduler σ) : Scheduler σ where
  new_execution st := inner.new_execution st
  next_task st runnable_tasks current_task is_yielding :=
    inner.next_task st runnable_tasks current_task is_yielding
  next_u64 st := inner.next_u64 st

/-- Runnable-set containment for a scheduler: whenever `next_task` is
called on a non-empty runnable list and returns a chosen task, that task
is an element of the runnable list. -/
def NextTaskContainment {σ : Type} (sch : Scheduler σ) : Prop :=
  ∀ (st : σ) (runnable : List TaskId) (current : Option TaskId) (y : Bool)
    (t : TaskId) (st' : σ),
    runnable ≠ [] →
    sch.next_task st runnable current y = (some t, st') →
    t ∈ runnable

/-- C8: the boxed-scheduler implementation is a pure delegation: each of
the three methods returns exactly the value the inner scheduler returns,
and leaves the state exactly as the direct call would, so boxing a
scheduler is observationally equivalent to the scheduler itself. -/
theorem box_scheduler_delegation {σ : Type} (inner : Scheduler σ) (st : σ)
    (runnable : List TaskId) (current : Option TaskId) (y : Bool) :
    (boxScheduler inner).new_execution st = inner.new_execution st ∧
    (boxScheduler inner).next_task st runnable current y =
      inner.next_task st runnable current y ∧
    (boxScheduler inner).next_u64 st = inner.next_u64 st :=
  ⟨rfl, rfl, rfl⟩

/-- Folding a binary choice function that always returns one of its two
arguments over a list yields the accumulator or a list element (used for
the highest-priority and least-recently-scheduled selections). -/
theorem foldl_choice_mem {α : Type} (f : α → α → α)
    (hf : ∀ a b, f a b = a ∨ f a b = b) :
    ∀ (l : List α) (a : α), l.foldl f a = a ∨ l.foldl f a ∈ l := by
  intro l
  induction l with
  | nil => intro a; exact Or.inl rfl
  | cons x xs ih =>
    intro a
    rw [List.foldl_cons]
    rcases ih (f a x) with h | h
    · rcases hf a x with h' | h'
      · exact Or.inl (h.trans h')
      · exact Or.inr (by rw [h, h']; exact List.mem_cons_self x xs)
    · exact Or.inr (List.mem_cons_of_mem x h)

/-- Selection by repeated binary comparison over a non-empty list
(head plus tail), keeping the incumbent on ties: the shape shared by the
highest-priority selection of PCT and the least-recently-scheduled
selection of round robin.  Ties are broken by the fixed list order. -/
def selectBy (better : TaskId → TaskId → Bool) (hd : TaskId)
    (tl : List TaskId) : TaskId :=
  tl.foldl (fun best t => if better best t then t else best) hd

/-- The selected task is an element of the candidate list. -/
theorem selectBy_mem (better : TaskId → TaskId → Bool) (hd : TaskId)
    (tl : List TaskId) : selectBy better hd tl ∈ hd :: tl := by
  unfold selectBy
  rcases foldl_choice_mem (fun best t => if better best t then t else best)
      (fun a b => by dsimp only; split <;> simp) tl hd with h | h
  · rw [h]; exact List.mem_cons_self hd tl
  · exact List.mem_cons_of_mem hd h

/-- Modelled from the spec: the candidate list the uniform-random
strategy draws from (§4.4): a task that asked to yield is deprioritized
as a soft bias — filtered out of the candidates unless it is the only
runnable task — never excluding anything else. -/
def yieldCandidates (runnable : List TaskId) (current : Option TaskId)
    (yielding : Bool) : List TaskId :=
  if yielding then
    match current with
    | some c =>
        if (runnable.filter (fun t => !(t == c))).isEmpty then runnable
        else runnable.filter (fun t => !(t == c))
    | none => runnable
  else runnable

/-- Every candidate is runnable. -/
theorem yieldCandidates_subset (runnable : List TaskId)
    (current : Option TaskId) (yielding : Bool) (u : TaskId)
    (hu : u ∈ yieldCandidates runnable current yielding) : u ∈ runnable := by
  unfold yieldCandidates at hu
  split at hu
  · cases current with
    | none => exact hu
    | some c =>
        simp only at hu
        split at hu
        · exact hu
        · exact List.mem_of_mem_filter hu
  · exact hu

/-- Modelled from the spec: state of the depth-first-search scheduler
(dfs.rs is not under src/).  Of the DFS state described in §4.2 we keep
what its `next_task` rule uses: the sibling alternatives already tried
at the current decision node, the decision-point audit records, and the
trace of the current execution. -/
structure DfsState where
  tried : List TaskId
  record : List ScheduleRecord
  trace : Schedule
  deriving DecidableEq

/-- Modelled from the spec: DFS `next_task` (§4.2) picks the next
untried alternative at the current node, with the fixed iteration order
over `runnable_tasks` as deterministic tie-break, and records the full
runnable set as a `ScheduleRecord`; `new_execution` and `next_u64` are
not used by the claims and are given trivial spec-consistent bodies. -/
def dfsScheduler : Scheduler DfsState where
  new_execution st := (some st.trace, st)
  next_task st runnable _ _ :=
    match runnable.find? (fun t => !(st.tried.contains t)) with
    | some t =>
        (some t,
          { tried := t :: st.tried
            record := ScheduleRecord.new (ScheduleStep.task t) runnable :: st.record
            trace := st.trace.push_task t })
    | none => (none, st)
  next_u64 st := (0, st)

/-- Modelled from the spec: state of the PCT scheduler (pct.rs is not
under src/): per-task priorities, the chosen priority-change points, the
current step index, the pre-drawn seeded random sequence and its cursor,
and the trace being recorded (§4.3). -/
structure PctState where
  prio : TaskId → Nat
  change_points : List Nat
  step_index : Nat
  rand_seq : Nat → Nat
  rand_index : Nat
  trace : Schedule

/-- Modelled from the spec: PCT `next_task` (§4.3) lowers the current
task's priority below all others when the step index is a
priority-change point, then selects the runnable task with the highest
current priority, ties broken by the fixed list order. -/
def pctEffectivePrio (st : PctState) (current : Option TaskId) :
    TaskId → Nat :=
  if st.step_index ∈ st.change_points then
    match current with
    | some c => fun t => if t = c then 0 else st.prio t + 1
    | none => st.prio
  else st.prio

/-- Modelled from the spec: PCT `next_task` selects the runnable task of
numerically highest effective priority. -/
def pctScheduler : Scheduler PctState where
  new_execution st := (some st.trace, st)
  next_task st runnable current _ :=
    match runnable with
    | [] => (none, st)
    | hd :: tl =>
        let chosen := selectBy
          (fun best t =>
            decide (pctEffectivePrio st current best < pctEffectivePrio st current t))
          hd tl
        (some chosen,
          { st with
              prio := pctEffectivePrio st current
              step_index := st.step_index + 1
              trace := st.trace.push_task chosen })
  next_u64 st :=
    (st.rand_seq st.rand_index,
      { st with rand_index := st.rand_index + 1, trace := st.trace.push_random })

/-- Modelled from the spec: state of the uniform-random scheduler
(random.rs is not under src/): the pre-drawn seeded random sequence and
its cursor, and the trace being recorded (§4.4). -/
structure RandomState where
  rand_seq : Nat → Nat
  rand_index : Nat
  trace : Schedule

/-- Modelled from the spec: uniform-random `next_task` (§4.4) picks a
random index into the candidate list; a task that asked to yield is
deprioritized as a soft bias — removed from the candidates unless it is
the only runnable task — but the choice always stays inside
`runnable_tasks`. -/
def randomScheduler : Scheduler RandomState where
  new_execution st := (some st.trace, st)
  next_task st runnable current yielding :=
    match yieldCandidates runnable current yielding with
    | [] => (none, st)
    | c :: cs =>
        let chosen := (c :: cs).get
          ⟨st.rand_seq st.rand_index % (cs.length + 1), Nat.mod_lt _ (Nat.succ_pos _)⟩
        (some chosen,
          { st with rand_index := st.rand_index + 1, trace := st.trace.push_task chosen })
  next_u64 st :=
    (st.rand_seq st.rand_index,
      { st with rand_index := st.rand_index + 1, trace := st.trace.push_random })

/-- Modelled from the spec: state of the round-robin scheduler
(round_robin.rs is not under src/): the time each task was last
scheduled (zero for never-seen ids), a logical clock, and the trace
(§4.5). -/
structure RoundRobinState where
  last_sched : TaskId → Nat
  clock : Nat
  trace : Schedule

/-- Modelled from the spec: round-robin `next_task` (§4.5) picks the
least-recently-scheduled task among `runnable_tasks`, ties (including
never-seen ids, which all carry time zero) broken by the fixed list
order. -/
def roundRobinScheduler : Scheduler RoundRobinState where
  new_execution st := (some st.trace, st)
  next_task st runnable _ _ :=
    match runnable with
    | [] => (none, st)
    | hd :: tl =>
        let chosen :=
          selectBy (fun best t => decide (st.last_sched t < st.last_sched best)) hd tl
        (some chosen,
          { last_sched := fun t => if t = chosen then st.clock + 1 else st.last_sched t
            clock := st.clock + 1
            trace := st.trace.push_task chosen })
  next_u64 st := (0, { st with trace := st.trace.push_random })

/-- Modelled from the spec: state of the exact-replay scheduler
(replay.rs is not under src/): the stored schedule, the steps still to
replay, how many random draws were consumed from the seeded source, and
whether `new_execution` has already handed out the schedule (§4.6). -/
structure ReplayState where
  seed : Nat
  remaining : List ScheduleStep
  rand_used : Nat
  given : Bool
  orig : Schedule
  deriving DecidableEq

/-- Modelled from the spec: replay state at the start of replaying a
stored schedule. -/
def initReplay (s : Schedule) : ReplayState :=
  { seed := s.seed, remaining := s.steps, rand_used := 0
    given := false, orig := s }

/-- Modelled from the spec: the exact-replay scheduler (§4.6),
parametrized by the deterministic seeded random source `rng` (value of
the k-th draw under a given seed).  `next_task` returns the task named
by the next recorded `Task` step if the live runnable set offers it, and
signals a hard failure (divergence) by returning none otherwise;
`next_u64` returns the value implied by consuming the next recorded
`Random` step's position in the seeded sequence; `new_execution` returns
the stored schedule once, then signals stop. -/
def replayScheduler (rng : Nat → Nat → Nat) : Scheduler ReplayState where
  new_execution st :=
    if st.given then (none, st) else (some st.orig, { st with given := true })
  next_task st runnable _ _ :=
    match st.remaining with
    | ScheduleStep.task t :: rest =>
        if t ∈ runnable then (some t, { st with remaining := rest })
        else (none, st)
    | _ => (none, st)
  next_u64 st :=
    match st.remaining with
    | ScheduleStep.random :: rest =>
        (rng st.seed st.rand_used,
          { st with remaining := rest, rand_used := st.rand_used + 1 })
    | _ => (rng st.seed st.rand_used, st)

/-- Modelled from the spec: state of the determinism-check wrapper
(determinism_check.rs is not under src/): one real and one shadow copy
of the wrapped scheduler's state, plus a flag recording whether a
determinism violation was observed (§4.7). -/
structure DetCheckState (σ : Type) where
  real : σ
  shadow : σ
  violation : Bool

/-- Modelled from the spec: the determinism-check wrapper (§4.7) runs
every call against the wrapped scheduler twice — once for real, once
shadow — compares the two outputs, raises the violation flag on any
mismatch, and answers with the real pass's output. -/
def detCheckScheduler {σ : Type} (inner : Scheduler σ) :
    Scheduler (DetCheckState σ) where
  new_execution st :=
    let r1 := inner.new_execution st.real
    let r2 := inner.new_execution st.shadow
    (r1.1,
      { real := r1.2, shadow := r2.2
        violation := st.violation || decide (r1.1 ≠ r2.1) })
  next_task st runnable current y :=
    let r1 := inner.next_task st.real runnable current y
    let r2 := inner.next_task st.shadow runnable current y
    (r1.1,
      { real := r1.2, shadow := r2.2
        violation := st.violation || decide (r1.1 ≠ r2.1) })
  next_u64 st :=
    let r1 := inner.next_u64 st.real
    let r2 := inner.next_u64 st.shadow
    (r1.1,
      { real := r1.2, shadow := r2.2
        violation := st.violation || decide (r1.1 ≠ r2.1) })

/-- C2: `next_task` never returns a task absent from its non-empty
`runnable_tasks` argument: the boxed-scheduler implementation preserves
containment of the scheduler it wraps, and every strategy — depth-first
search, PCT, uniform random, round robin, exact replay for any seeded
source, and the determinism-check wrapper of any containment-satisfying
scheduler — satisfies containment. -/
theorem next_task_runnable_containment :
    (∀ (σ : Type) (s : Scheduler σ),
      NextTaskContainment s → NextTaskContainment (boxScheduler s)) ∧
    NextTaskContainment dfsScheduler ∧
    NextTaskContainment pctScheduler ∧
    NextTaskContainment randomScheduler ∧
    NextTaskContainment roundRobinScheduler ∧
    (∀ rng : Nat → Nat → Nat, NextTaskContainment (replayScheduler rng)) ∧
    (∀ (σ : Type) (s : Scheduler σ),
      NextTaskContainment s → NextTaskContainment (detCheckScheduler s)) := by
  refine ⟨?_, ?_, ?_, ?_, ?_, ?_, ?_⟩
  · intro σ s hs st runnable current y t st' hne h
    exact hs st runnable current y t st' hne h
  · intro st runnable current y t st' _ h
    simp only [dfsScheduler] at h
    cases hf : runnable.find? (fun t => !(st.tried.contains t)) with
    | none => rw [hf] at h; exact absurd (congrArg Prod.fst h) (by simp)
    | some u =>
        rw [hf] at h
        have : u = t := by
          have := congrArg Prod.fst h
          simpa using this
        subst this
        exact List.mem_of_find?_eq_some hf
  · intro st runnable current y t st' hne h
    cases runnable with
    | nil => exact absurd rfl hne
    | cons hd tl =>
        simp only [pctScheduler] at h
        have h2 : selectBy
            (fun best u =>
              decide (pctEffectivePrio st current best < pctEffectivePrio st current u))
            hd tl = t := by
          simpa using congrArg Prod.fst h
        exact h2 ▸ selectBy_mem _ hd tl
  · intro st runnable current y t st' hne h
    simp only [randomScheduler] at h
    cases hc : yieldCandidates runnable current y with
    | nil => rw [hc] at h; exact absurd (congrArg Prod.fst h) (by simp)
    | cons c cs =>
        rw [hc] at h
        have h2 : (c :: cs).get
            ⟨st.rand_seq st.rand_index % (cs.length + 1), Nat.mod_lt _ (Nat.succ_pos _)⟩ = t := by
          simpa using congrArg Prod.fst h
        apply yieldCandidates_subset runnable current y t
        rw [hc, ← h2]
        exact List.get_mem _ _ _
  · intro st runnable current y t st' hne h
    cases runnable with
    | nil => exact absurd rfl hne
    | cons hd tl =>
        simp only [roundRobinScheduler] at h
        have h2 : selectBy (fun best u => decide (st.last_sched u < st.last_sched best))
            hd tl = t := by
          simpa using congrArg Prod.fst h
        exact h2 ▸ selectBy_mem _ hd tl
  · intro rng st runnable current y t st' hne h
    simp only [replayScheduler] at h
    cases hr : st.remaining with
    | nil => rw [hr] at h; exact absurd (congrArg Prod.fst h) (by simp)
    | cons s rest =>
        rw [hr] at h
        cases s with
        | random => exact absurd (congrArg Prod.fst h) (by simp)
        | task u =>
            simp only at h
            by_cases hmem : u ∈ runnable
            · rw [if_pos hmem] at h
              have : u = t := by simpa using congrArg Prod.fst h
              exact this ▸ hmem
            · rw [if_neg hmem] at h
              exact absurd (congrArg Prod.fst h) (by simp)
  · intro σ s hs st runnable current y t st' hne h
    simp only [detCheckScheduler] at h
    have h1 : (s.next_task st.real runnable current y).1 = some t :=
      congrArg Prod.fst h
    exact hs st.real runnable current y t (s.next_task st.real runnable current y).2 hne
      (by rw [← h1])

/-- Closed instance of C2: a boxed depth-first-search scheduler from a
fresh state over the runnable list [3, 5] chooses task 3, and
containment places 3 in that list. -/
theorem next_task_runnable_containment_app :
    (3 : TaskId) ∈ ([3, 5] : List TaskId) :=
  next_task_runnable_containment.1 DfsState dfsScheduler
    next_task_runnable_containment.2.1
    { tried := [], record := [], trace := Schedule.new 0 } [3, 5] none false 3
    { tried := [3]
      record := [ScheduleRecord.new (ScheduleStep.task 3) [3, 5]]
      trace := (Schedule.new 0).push_task 3 }
    (by decide) (by rfl)

/-- One observable event of a driven execution: a chosen task or a
served random value. -/
inductive ExecEvent where
  | chose (t : TaskId)
  | drew (v : Nat)
  deriving DecidableEq

/-- The schedule step a recording strategy appends for an event: a
`Task` step for a choice, a `Random` step for a random draw (the drawn
value itself is not recorded). -/
def eventStep : ExecEvent → ScheduleStep
  | ExecEvent.chose t => ScheduleStep.task t
  | ExecEvent.drew _ => ScheduleStep.random

/-- Record one event into a schedule through the source's append
operations `push_task` and `push_random`. -/
def recordEvent (s : Schedule) (e : ExecEvent) : Schedule :=
  match e with
  | ExecEvent.chose t => s.push_task t
  | ExecEvent.drew _ => s.push_random

/-- The schedule a strategy records for an execution with the given
seed and event sequence. -/
def recordTrace (seed : Nat) (trace : List ExecEvent) : Schedule :=
  trace.foldl recordEvent (Schedule.new seed)

/-- Modelled from the spec: an execution trace is valid for the seeded
deterministic source `rng` when its k-th random draw carries the value
`rng seed k` — §9 requires every strategy to draw all randomness from
one seeded source whose call order matches the recorded Random steps. -/
def validFrom (rng : Nat → Nat → Nat) (seed : Nat) :
    Nat → List ExecEvent → Bool
  | _, [] => true
  | k, ExecEvent.chose _ :: rest => validFrom rng seed k rest
  | k, ExecEvent.drew v :: rest =>
      decide (v = rng seed k) && validFrom rng seed (k + 1) rest

/-- The engine offers the same runnable sets as the recorded execution:
one runnable list per scheduling decision, in order, each offering the
task chosen at that point. -/
def offersOk : List ExecEvent → List (List TaskId) → Bool
  | [], [] => true
  | [], _ :: _ => false
  | ExecEvent.chose _ :: _, [] => false
  | ExecEvent.chose t :: rest, r :: offers =>
      decide (t ∈ r) && offersOk rest offers
  | ExecEvent.drew _ :: rest, offers => offersOk rest offers

/-- Modelled from the spec: the execution engine driving an exact-replay
scheduler through the scheduling points of the recorded execution: at
each recorded decision it calls `next_task` with the offered runnable
set, at each recorded random request it calls `next_u64`, and it stops
if the scheduler signals divergence. -/
def driveReplay (rng : Nat → Nat → Nat) :
    List ScheduleStep → ReplayState → List (List TaskId) → List ExecEvent
  | [], _, _ => []
  | ScheduleStep.task _ :: rest, st, r :: offers =>
      match (replayScheduler rng).next_task st r none false with
      | (some t, st') => ExecEvent.chose t :: driveReplay rng rest st' offers
      | (none, _) => []
  | ScheduleStep.task _ :: _, _, [] => []
  | ScheduleStep.random :: rest, st, offers =>
      match (replayScheduler rng).next_u64 st with
      | (v, st') => ExecEvent.drew v :: driveReplay rng rest st' offers

/-- The recorded schedule carries the given seed and the per-event steps
in order. -/
theorem recordTrace_spec (seed : Nat) (trace : List ExecEvent) :
    (recordTrace seed trace).seed = seed ∧
    (recordTrace seed trace).steps = trace.map eventStep := by
  have key : ∀ (tr : List ExecEvent) (s : Schedule),
      (tr.foldl recordEvent s).seed = s.seed ∧
      (tr.foldl recordEvent s).steps = s.steps ++ tr.map eventStep := by
    intro tr
    induction tr with
    | nil => intro s; simp
    | cons e r ih =>
        intro s
        cases e <;>
          simp [List.foldl_cons, recordEvent, Schedule.push_task,
            Schedule.push_random, eventStep, ih]
  have h := key trace (Schedule.new seed)
  simpa [recordTrace, Schedule.new] using h

/-- Driving replay over the steps of a schedule recorded from a valid
trace, with the same runnable sets offered, reproduces the trace. -/
theorem driveReplay_eq (rng : Nat → Nat → Nat) (seed : Nat) :
    ∀ (trace : List ExecEvent) (k : Nat) (st : ReplayState)
      (offers : List (List TaskId)),
      st.seed = seed → st.remaining = trace.map eventStep →
      st.rand_used = k →
      validFrom rng seed k trace = true → offersOk trace offers = true →
      driveReplay rng (trace.map eventStep) st offers = trace := by
  intro trace
  induction trace with
  | nil => intro k st offers _ _ _ _ _; simp [driveReplay]
  | cons e rest ih =>
    intro k st offers hseed hrem hk hv ho
    cases e with
    | chose t =>
        cases offers with
        | nil => simp [offersOk] at ho
        | cons r offers' =>
            have ho' : t ∈ r ∧ offersOk rest offers' = true := by
              simpa [offersOk] using ho
            have hv' : validFrom rng seed k rest = true := by
              simpa [validFrom] using hv
            simp only [List.map_cons, eventStep, driveReplay, replayScheduler,
              hrem, ho'.1, if_true]
            rw [ih k { st with remaining := rest.map eventStep } offers'
              hseed rfl hk hv' ho'.2]
    | drew v =>
        have hv' : v = rng seed k ∧ validFrom rng seed (k + 1) rest = true := by
          simpa [validFrom] using hv
        have ho' : offersOk rest offers = true := by
          simpa [offersOk] using ho
        simp only [List.map_cons, eventStep, driveReplay, replayScheduler,
          hrem, hseed, hk]
        rw [← hv'.1]
        exact congrArg (ExecEvent.drew v :: ·)
          (ih (k + 1) _ offers rfl rfl rfl hv'.2 ho')

/-- C1: replay round trip.  For any execution trace a strategy records
(its random draws following the seeded deterministic source, as every
strategy's are), driving an exact-replay scheduler with the recorded
schedule, against an engine offering the same runnable sets at each
step, yields exactly the ordered sequence of chosen tasks and random
values encoded in that schedule. -/
theorem replay_round_trip (rng : Nat → Nat → Nat) (seed : Nat)
    (trace : List ExecEvent) (offers : List (List TaskId))
    (hv : validFrom rng seed 0 trace = true)
    (ho : offersOk trace offers = true) :
    driveReplay rng (recordTrace seed trace).steps
      (initReplay (recordTrace seed trace)) offers = trace := by
  have hs := recordTrace_spec seed trace
  rw [hs.2]
  exact driveReplay_eq rng seed trace 0 (initReplay (recordTrace seed trace))
    offers (by simpa [initReplay] using hs.1) (by simpa [initReplay] using hs.2)
    rfl hv ho

/-- Closed instance of C1: recording the trace (choose task 1, draw the
seeded value 7, choose task 2) under seed 7 with the source mapping seed
s and draw index k to s + k, then replaying it against offered runnable
sets [1, 2] and [2, 3], reproduces the trace. -/
theorem replay_round_trip_app :
    driveReplay (fun s k => s + k)
      (recordTrace 7 [ExecEvent.chose 1, ExecEvent.drew 7, ExecEvent.chose 2]).steps
      (initReplay (recordTrace 7 [ExecEvent.chose 1, ExecEvent.drew 7, ExecEvent.chose 2]))
      [[1, 2], [2, 3]] =
      [ExecEvent.chose 1, ExecEvent.drew 7, ExecEvent.chose 2] :=
  replay_round_trip (fun s k => s + k) 7
    [ExecEvent.chose 1, ExecEvent.drew 7, ExecEvent.chose 2]
    [[1, 2], [2, 3]] (by decide) (by decide)
